import Mathlib

/-!
Verification of the query-analysis layer of `src/parser/query_api.go`:
the time-bound extractor (`getTime` and its helpers, lines 356-476) and the
column-reference resolver (`GetReferencedColumns`, `revertAlias`,
`getReferencedColumnsFromValue`, `getReferencedColumnsFromCondition`,
`uniq`, lines 19-31 and 73-300).

Modelling conventions:
- Go `time.Time` values flowing through `getTime` are represented by
  `Option Int`: `none` is the `ZERO_TIME` sentinel (`time.Unix(0, 0)`, which
  carries the local location), and `some n` is a `.UTC()` timestamp whose
  instant is `n` nanoseconds since the epoch.  Go compares `time.Time`
  structs fieldwise, and a `.UTC()` value is never equal to `ZERO_TIME`
  (their location fields differ), so a consumed clause at instant zero is
  `some 0`, distinct from the sentinel `none` — exactly as in Go.
- `time.Time.Unix()` of a normalized time of instant `n` ns is
  `⌊n / 1e9⌋`, modelled by `unixSeconds` with flooring division.
- Go maps are modelled by association lists in insertion order; every list
  that the source exposes is either passed through `uniq` (which sorts) or
  used only in single-key scenarios, so this deterministic refinement does
  not affect the stated results.
- Go slice indexing `Elems[i]` on a well-formed (binary) comparison leaf is
  modelled by `List.getD` with a default `Value`; the parser guarantees two
  children (spec §6), so the default is never consulted on valid input.
-/

/-- The `Value.Type` tags used by `query_api.go` (the `Value` struct itself is
declared elsewhere in the parser package; the tag set is taken from the
switches in the sources and the spec's data model, §3). -/
inductive ValueType where
  | ValueRegex
  | ValueInt
  | ValueFloat
  | ValueString
  | ValueTableName
  | ValueSimpleName
  | ValueDuration
  | ValueWildcard
  | ValueFunctionCall
  | ValueExpression
  deriving DecidableEq

/-- Modelled from the spec: the parser's `Value` AST node (§3) — a type tag,
the textual payload `Name`, and the ordered children `Elems`.  The
`compiledRegex` field is represented implicitly: it is present exactly when
the kind is `ValueRegex` (spec §3). -/
inductive Value where
  | mk (vtype : ValueType) (name : String) (elems : List Value)

def Value.vtype : Value → ValueType
  | .mk t _ _ => t

def Value.name : Value → String
  | .mk _ n _ => n

def Value.elems : Value → List Value
  | .mk _ _ es => es

mutual

def Value.beq : Value → Value → Bool
  | .mk t1 n1 e1, .mk t2 n2 e2 => t1 == t2 && n1 == n2 && Value.beqList e1 e2

def Value.beqList : List Value → List Value → Bool
  | [], [] => true
  | x :: xs, y :: ys => Value.beq x y && Value.beqList xs ys
  | _, _ => false

end

mutual

def Value.beq_iff : ∀ a b : Value, Value.beq a b = true ↔ a = b
  | .mk t1 n1 e1, .mk t2 n2 e2 => by
    simp [Value.beq, Value.mk.injEq, Value.beqList_iff e1 e2, and_assoc]

def Value.beqList_iff : ∀ a b : List Value, Value.beqList a b = true ↔ a = b
  | [], [] => by simp [Value.beqList]
  | [], _ :: _ => by simp [Value.beqList]
  | _ :: _, [] => by simp [Value.beqList]
  | x :: xs, y :: ys => by
    simp [Value.beqList, Value.beq_iff x y, Value.beqList_iff xs ys]

end

instance : DecidableEq Value := fun a b =>
  decidable_of_iff (Value.beq a b = true) (Value.beq_iff a b)

/-- Default used to model out-of-range `Elems` indexing (never consulted on
well-formed binary comparison leaves). -/
def defaultValue : Value := .mk .ValueSimpleName "" []

/-- Modelled from the spec: `Value.IsFunctionCall` (declared outside the
sampled sources) — whether the node's kind is a function call. -/
def Value.IsFunctionCall (v : Value) : Bool := v.vtype == .ValueFunctionCall

/-- Modelled from the spec: `Value.GetCompiledRegex` returns its compiled
regex together with an `ok` flag; per spec §3 the regex is present exactly
when the kind is `ValueRegex`.  We model only the `ok` flag. -/
def Value.hasCompiledRegex (v : Value) : Bool := v.vtype == .ValueRegex

/-- The parser's `WhereCondition`: a leaf wraps a boolean `Value` expression
(`GetBoolExpression` succeeds), an interior node has `Operation`, `Left` and
`Right` sub-conditions (`GetLeftWhereCondition` succeeds). -/
inductive WhereCondition where
  | expr (e : Value)
  | node (operation : String) (left : WhereCondition) (right : WhereCondition)
  deriving DecidableEq

/-- The error outcomes of `query_api.go` (the sources return `fmt.Errorf`
values; each constructor stands for one distinct error site / format). -/
inductive QueryError where
  /-- "Invalid where expression: %v" (line 366). -/
  | InvalidWhereExpression (expr : Value)
  /-- "Invalid time condition %v" (line 408). -/
  | InvalidTimeCondition
  /-- "Cannot use time with '%s'" (line 428). -/
  | CannotUseTimeWith (op : String)
  /-- "Invalid use of function %s" (line 236). -/
  | InvalidFunctionUse (name : String)
  /-- "%s isn't a valid time string" (line 210) or a `time.Parse` failure. -/
  | InvalidTimeString (s : String)
  /-- "Cannot use '%s' in a time expression" (line 261). -/
  | CannotUseOpInTimeExpression (op : String)
  /-- "Invalid where clause, time must appear twice to specify start and end
  time" (line 450); the spec calls it `ConflictingOrTimeBounds`. -/
  | ConflictingOrTimeBounds
  /-- Failure of the shared duration-parsing rule from package `common`. -/
  | InvalidDuration (s : String)
  deriving DecidableEq

def Except.decEq {ε α : Type} [DecidableEq ε] [DecidableEq α] :
    (a b : Except ε α) → Decidable (a = b)
  | .ok a, .ok b =>
    if h : a = b then isTrue (by rw [h])
    else isFalse (by intro he; cases he; exact h rfl)
  | .error a, .error b =>
    if h : a = b then isTrue (by rw [h])
    else isFalse (by intro he; cases he; exact h rfl)
  | .ok _, .error _ => isFalse (by intro h; cases h)
  | .error _, .ok _ => isFalse (by intro h; cases h)

instance {ε α : Type} [DecidableEq ε] [DecidableEq α] : DecidableEq (Except ε α) :=
  Except.decEq

/-- `ZERO_TIME = time.Unix(0, 0)` (line 16), the sentinel for "no time
extracted"; see the modelling conventions above. -/
def ZERO_TIME : Option Int := none

def digitVal (c : Char) : Option Nat :=
  if '0' ≤ c ∧ c ≤ '9' then some (c.toNat - '0'.toNat) else none

def digitsToNatAux : List Char → Nat → Option Nat
  | [], acc => some acc
  | c :: cs, acc =>
    match digitVal c with
    | some d => digitsToNatAux cs (acc * 10 + d)
    | none => none

/-- The numeric value of a nonempty list of decimal digits (`none` for an
empty list or any non-digit character). -/
def digitsToNat (l : List Char) : Option Nat :=
  match l with
  | [] => none
  | _ => digitsToNatAux l 0

/-- Modelled from the spec: `common.ParseTimeDuration` lives in package
`common`, outside the sampled sources.  Per spec §4.1 a duration literal such
as `5m` or `1d` yields nanoseconds; the sources themselves round-trip
`<count>u` as a count of microseconds (`GetQueryStringWithTimeCondition`,
lines 311-327).  We model: a decimal count followed by a unit suffix
(u = microsecond, s = second, m = minute, h = hour, d = day, w = week)
yields that many nanoseconds, a bare decimal count is taken as nanoseconds,
anything else fails. -/
def common.ParseTimeDuration (s : String) : Except QueryError Int :=
  match digitsToNat s.data with
  | some n => .ok (n : Int)
  | none =>
    match digitsToNat s.data.dropLast, s.data.getLast? with
    | some n, some u =>
      if u = 'u' then .ok ((n : Int) * 1000)
      else if u = 's' then .ok ((n : Int) * 1000000000)
      else if u = 'm' then .ok ((n : Int) * 60000000000)
      else if u = 'h' then .ok ((n : Int) * 3600000000000)
      else if u = 'd' then .ok ((n : Int) * 86400000000000)
      else if u = 'w' then .ok ((n : Int) * 604800000000000)
      else .error (.InvalidDuration s)
    | _, _ => .error (.InvalidDuration s)

def isLeapYear (y : Int) : Bool :=
  y % 4 == 0 && (y % 100 != 0 || y % 400 == 0)

/-- Days from the Unix epoch to the civil date y-m-d (standard
days-from-civil computation). -/
def daysFromCivil (y m d : Int) : Int :=
  let y := if m ≤ 2 then y - 1 else y
  let era := Int.fdiv y 400
  let yoe := y - era * 400
  let mp := (m + 9) % 12
  let doy := Int.fdiv (153 * mp + 2) 5 + d - 1
  let doe := yoe * 365 + Int.fdiv yoe 4 - Int.fdiv yoe 100 + doy
  era * 146097 + doe - 719468

/-- Fraction digits after the decimal point, scaled to nanoseconds. -/
def fracToNanos (l : List Char) : Option Int :=
  match digitsToNat (l.take 9) with
  | none => none
  | some n => some ((n : Int) * ((10 : Int) ^ (9 - (l.take 9).length)))

def splitOn1 (sep : Char) (l : List Char) : List Char × Option (List Char) :=
  match l with
  | [] => ([], none)
  | c :: cs =>
    if c = sep then ([], some cs)
    else
      let (a, b) := splitOn1 sep cs
      (c :: a, b)

/-- Modelled from the spec: `parseTimeString` (lines 193-226) matches the
date grammar `YYYY-MM-DD[ HH[:MM[:SS[.fraction]]]]` with `time_regex` and
then delegates to Go stdlib `time.Parse`, which is outside the repository.
We model the composed behavior: a strict `YYYY-MM-DD` date, optionally
followed by ` HH`, `:MM`, `:SS` and a fractional second, yields the UTC
instant in nanoseconds; every other string is an error (Go's `time.Parse`
rejects one- and two-digit years and unpadded components even though
`time_regex` lets them through, so the net accepted language is the strict
padded one). -/
def parseTimeString (t : String) : Except QueryError Int :=
  let (datePart, todPart) := splitOn1 ' ' t.data
  let (yPart, rest1) := splitOn1 '-' datePart
  match rest1 with
  | none => .error (.InvalidTimeString t)
  | some rest1 =>
    let (mPart, rest2) := splitOn1 '-' rest1
    match rest2 with
    | none => .error (.InvalidTimeString t)
    | some dPart =>
      match digitsToNat yPart, digitsToNat mPart, digitsToNat dPart with
      | some y, some mo, some d =>
        if yPart.length = 4 ∧ mPart.length = 2 ∧ dPart.length = 2 ∧
            1 ≤ mo ∧ mo ≤ 12 ∧ 1 ≤ d ∧ d ≤ 31 then
          let dayNs : Int := daysFromCivil (y : Int) (mo : Int) (d : Int) * 86400000000000
          match todPart with
          | none => .ok dayNs
          | some tod =>
            let (hPart, restH) := splitOn1 ':' tod
            match digitsToNat hPart with
            | none => .error (.InvalidTimeString t)
            | some h =>
              if hPart.length = 2 ∧ h ≤ 23 then
                let hNs := dayNs + (h : Int) * 3600000000000
                match restH with
                | none => .ok hNs
                | some restH =>
                  let (miPart, restMi) := splitOn1 ':' restH
                  match digitsToNat miPart with
                  | none => .error (.InvalidTimeString t)
                  | some mi =>
                    if miPart.length = 2 ∧ mi ≤ 59 then
                      let miNs := hNs + (mi : Int) * 60000000000
                      match restMi with
                      | none => .ok miNs
                      | some restMi =>
                        let (sPart, fracPart) := splitOn1 '.' restMi
                        match digitsToNat sPart with
                        | none => .error (.InvalidTimeString t)
                        | some s =>
                          if sPart.length = 2 ∧ s ≤ 59 then
                            let sNs := miNs + (s : Int) * 1000000000
                            match fracPart with
                            | none => .ok sNs
                            | some frac =>
                              match fracToNanos frac with
                              | some fns => .ok (sNs + fns)
                              | none => .error (.InvalidTimeString t)
                          else .error (.InvalidTimeString t)
                    else .error (.InvalidTimeString t)
              else .error (.InvalidTimeString t)
        else .error (.InvalidTimeString t)
      | _, _, _ => .error (.InvalidTimeString t)

/-- `parseTime` (lines 228-263): evaluate a time expression to a nanosecond
count.  Reading the wall clock (`time.Now().UnixNano()`, line 232) is
modelled by the explicit `now` parameter. -/
def parseTime (now : Int) : Value → Except QueryError Int
  | .mk .ValueExpression n es =>
    match es with
    | leftV :: rightV :: _ =>
      match parseTime now leftV with
      | .error e => .error e
      | .ok leftValue =>
        match parseTime now rightV with
        | .error e => .error e
        | .ok rightValue =>
          if n = "+" then .ok (leftValue + rightValue)
          else if n = "-" then .ok (leftValue - rightValue)
          else .error (.CannotUseOpInTimeExpression n)
    | _ =>
      -- a malformed binary expression; Go would panic indexing `Elems`
      .error (.CannotUseOpInTimeExpression n)
  | v =>
    if v.IsFunctionCall ∧ v.name = "now" then .ok now
    else if v.IsFunctionCall then .error (.InvalidFunctionUse v.name)
    else if v.vtype = .ValueString then parseTimeString v.name
    else common.ParseTimeDuration v.name

/-- `isNumericValue` (lines 302-309). -/
def isNumericValue (v : Value) : Bool :=
  match v.vtype with
  | .ValueDuration | .ValueFloat | .ValueInt | .ValueString => true
  | _ => false

/-- `time.Time.Unix()` of a normalized `.UTC()` time of instant `n` ns. -/
def unixSeconds (n : Int) : Int := Int.fdiv n 1000000000

/-- The time-combination tail of `getTime` (lines 463-475): propagate the
single non-sentinel time, or tie-break two times by whole Unix seconds —
start extraction keeps the left time only when its second is strictly
smaller, end extraction only when strictly larger; otherwise the right
time is returned. -/
def combineTimes (isParsingStartTime : Bool) (timeLeft timeRight : Option Int) :
    Option Int :=
  match timeLeft, timeRight with
  | none, _ => timeRight
  | some _, none => timeLeft
  | some a, some b =>
    if isParsingStartTime ∧ unixSeconds a < unixSeconds b then some a
    else if ¬(isParsingStartTime = true) ∧ unixSeconds a > unixSeconds b then some a
    else some b

/-- The condition-rebuilding step of `getTime` (lines 453-461): when one
side reduced to nil the node collapses to the other side, otherwise the
node keeps both rewritten children under the same operation. -/
def rebuildCondition (operation : String) (newLeft newRight : Option WhereCondition) :
    Option WhereCondition :=
  match newLeft, newRight with
  | none, nr => nr
  | some nl, none => some nl
  | some nl, some nr => some (.node operation nl nr)

/-- The leaf case of `getTime` (lines 363-435) on the leaf's boolean
expression.  The first component of a successful result tells whether the
condition is kept (`true` = the source returns `condition` itself,
`false` = the source returns nil, the clause is consumed). -/
def getTimeLeaf (now : Int) (expr : Value) (isParsingStartTime : Bool) :
    Except QueryError (Bool × Option Int) :=
  match expr.vtype with
  | .ValueDuration | .ValueFloat | .ValueInt | .ValueString | .ValueWildcard =>
    .error (.InvalidWhereExpression expr)
  | .ValueFunctionCall => .ok (true, ZERO_TIME)
  | _ =>
    let leftValue := expr.elems.getD 0 defaultValue
    let rightValue := expr.elems.getD 1 defaultValue
    let isTimeOnLeft : Bool :=
      decide (leftValue.vtype ≠ .ValueExpression ∧ leftValue.vtype ≠ .ValueFunctionCall)
    let isTimeOnRight : Bool :=
      decide (rightValue.vtype ≠ .ValueExpression ∧ rightValue.vtype ≠ .ValueFunctionCall)
    let (isTimeOnLeft, isTimeOnRight) :=
      if isTimeOnLeft && isTimeOnRight then
        if isNumericValue rightValue then (isTimeOnLeft, false)
        else (false, isTimeOnRight)
      else (isTimeOnLeft, isTimeOnRight)
    if !isTimeOnLeft && !isTimeOnRight then .ok (true, ZERO_TIME)
    else
      let chosen : Except QueryError (Option Value) :=
        if !isTimeOnRight then
          if leftValue.name ≠ "time" then .ok none else .ok (some rightValue)
        else if !isTimeOnLeft then
          if rightValue.name ≠ "time" then .ok none else .ok (some leftValue)
        else .error .InvalidTimeCondition
      match chosen with
      | .error e => .error e
      | .ok none => .ok (true, ZERO_TIME)
      | .ok (some timeExpression) =>
        if expr.name = ">" then
          if (isParsingStartTime && !isTimeOnLeft) ||
              (!isParsingStartTime && !isTimeOnRight) then .ok (true, ZERO_TIME)
          else
            match parseTime now timeExpression with
            | .error e => .error e
            | .ok nanoseconds => .ok (false, some nanoseconds)
        else if expr.name = "<" then
          if (!isParsingStartTime && !isTimeOnLeft) ||
              (isParsingStartTime && !isTimeOnRight) then .ok (true, ZERO_TIME)
          else
            match parseTime now timeExpression with
            | .error e => .error e
            | .ok nanoseconds => .ok (false, some nanoseconds)
        else if expr.name = "=" then
          match parseTime now timeExpression with
          | .error e => .error e
          | .ok microseconds => .ok (true, some (microseconds * 1000))
        else .error (.CannotUseTimeWith expr.name)

/-- `getTime` on a non-nil condition (lines 363-476): leaves via
`getTimeLeaf`, interior nodes recurse into both children, reject any OR
that carries a non-sentinel time on either side, rebuild the condition and
combine the two times. -/
def getTimeCond (now : Int) (c : WhereCondition) (isParsingStartTime : Bool) :
    Except QueryError (Option WhereCondition × Option Int) :=
  match c with
  | .expr e =>
    match getTimeLeaf now e isParsingStartTime with
    | .error err => .error err
    | .ok (true, t) => .ok (some (.expr e), t)
    | .ok (false, t) => .ok (none, t)
  | .node op l r =>
    match getTimeCond now l isParsingStartTime with
    | .error err => .error err
    | .ok (newLeft, timeLeft) =>
      match getTimeCond now r isParsingStartTime with
      | .error err => .error err
      | .ok (newRight, timeRight) =>
        if op = "OR" ∧ (timeLeft ≠ ZERO_TIME ∨ timeRight ≠ ZERO_TIME) then
          .error .ConflictingOrTimeBounds
        else
          .ok (rebuildCondition op newLeft newRight,
            combineTimes isParsingStartTime timeLeft timeRight)

/-- `getTime` (lines 356-476): parse the start or end time from the where
conditions and return the rewritten condition (nil input yields nil and
`ZERO_TIME`). -/
def getTime (now : Int) (condition : Option WhereCondition)
    (isParsingStartTime : Bool) :
    Except QueryError (Option WhereCondition × Option Int) :=
  match condition with
  | none => .ok (none, ZERO_TIME)
  | some c => getTimeCond now c isParsingStartTime

/-! ### Heap model of `getTime`

Go's `getTime` receives pointers and rewrites interior nodes in place
(lines 453-461 assign `newCondition.Left` / `newCondition.Right` on the node
`condition` itself).  To reason about this aliasing behavior we re-run the
same algorithm over an explicit heap of numbered nodes: `getTimeHeap` is
the store-passing transcription of lines 356-476, sharing the leaf logic
`getTimeLeaf` with the pure version above.  Fuel bounds the recursion depth
(heaps are finite; in every use below the fuel exceeds the tree height). -/

/-- A heap node: a leaf holding its boolean expression, or an interior node
holding `Operation` and the heap addresses of `Left` and `Right`. -/
inductive HNode where
  | leaf (e : Value)
  | interior (operation : String) (left : Nat) (right : Nat)
  deriving DecidableEq

abbrev Heap := List (Nat × HNode)

def heapGet (h : Heap) (i : Nat) : Option HNode :=
  (h.find? (fun p => p.1 == i)).map (·.2)

def heapSet (h : Heap) (i : Nat) (n : HNode) : Heap :=
  h.map (fun p => if p.1 == i then (i, n) else p)

/-- Store-passing transcription of `getTime` (lines 356-476): identical
control flow to `getTimeCond`, except that when both rewritten children are
non-nil the source mutates the current node's `Left`/`Right` fields in
place — here `heapSet` on the node's own address. -/
def getTimeHeap (now : Int) :
    Nat → Heap → Option Nat → Bool → Heap × Except QueryError (Option Nat × Option Int)
  | 0, h, _, _ => (h, .ok (none, ZERO_TIME))
  | _ + 1, h, none, _ => (h, .ok (none, ZERO_TIME))
  | fuel + 1, h, some addr, isParsingStartTime =>
    match heapGet h addr with
    | none => (h, .ok (none, ZERO_TIME))
    | some (.leaf e) =>
      match getTimeLeaf now e isParsingStartTime with
      | .error err => (h, .error err)
      | .ok (true, t) => (h, .ok (some addr, t))
      | .ok (false, t) => (h, .ok (none, t))
    | some (.interior op l r) =>
      match getTimeHeap now fuel h (some l) isParsingStartTime with
      | (h1, .error err) => (h1, .error err)
      | (h1, .ok (newLeft, timeLeft)) =>
        match getTimeHeap now fuel h1 (some r) isParsingStartTime with
        | (h2, .error err) => (h2, .error err)
        | (h2, .ok (newRight, timeRight)) =>
          if op = "OR" ∧ (timeLeft ≠ ZERO_TIME ∨ timeRight ≠ ZERO_TIME) then
            (h2, .error .ConflictingOrTimeBounds)
          else
            let combined := combineTimes isParsingStartTime timeLeft timeRight
            match newLeft, newRight with
            | none, nr => (h2, .ok (nr, combined))
            | some nl, none => (h2, .ok (some nl, combined))
            | some nl, some nr =>
              (heapSet h2 addr (.interior op nl nr), .ok (some addr, combined))

/-! ### Column-reference resolver -/

/-- The auxiliary `mapping` of the resolver: Go's `map[string][]string`,
modelled as an association list in insertion order. -/
abbrev SMap := List (String × List String)

def alGet (m : SMap) (k : String) : Option (List String) :=
  (m.find? (fun p => p.1 == k)).map (·.2)

def alSet (m : SMap) (k : String) (v : List String) : SMap :=
  if (m.find? (fun p => p.1 == k)).isSome then
    m.map (fun p => if p.1 == k then (k, v) else p)
  else m ++ [(k, v)]

def alDelete (m : SMap) (k : String) : SMap :=
  m.filter (fun p => p.1 != k)

/-- `mapping[k] = append(mapping[k], v)` on a Go map. -/
def alAppend (m : SMap) (k : String) (v : String) : SMap :=
  match alGet m k with
  | some vs => alSet m k (vs ++ [v])
  | none => m ++ [(k, [v])]

/-- `strings.LastIndex(s, ".")`-based split: `some (before, after)` splits
`s` at its last dot, `none` when `s` has no dot (the `idx == -1` branch). -/
def lastDotSplitAux : List Char → Option (List Char × List Char)
  | [] => none
  | c :: cs =>
    match lastDotSplitAux cs with
    | some (p, q) => some (c :: p, q)
    | none => if c = '.' then some ([], cs) else none

def lastDotSplit (s : String) : Option (String × String) :=
  (lastDotSplitAux s.data).map (fun pq => (String.mk pq.1, String.mk pq.2))

mutual

/-- `getReferencedColumnsFromValue` (lines 265-288).  The Go function
mutates `mapping` and returns `notAssigned`; here the updated mapping is
returned alongside. -/
def getReferencedColumnsFromValue (v : Value) (mapping : SMap) :
    SMap × List String :=
  match v with
  | .mk vt n elems =>
    match vt with
    | .ValueSimpleName | .ValueTableName =>
      match lastDotSplit n with
      | some (tableName, columnName) => (alAppend mapping tableName columnName, [])
      | none => (mapping, [n])
    | .ValueWildcard => (mapping, ["*"])
    | .ValueExpression | .ValueFunctionCall => getReferencedColumnsFromElems elems mapping
    | _ => (mapping, [])

/-- The `for _, value := range v.Elems` loop of lines 277-285: recurse into
each child, drop a leading `*` from the child's contribution, concatenate. -/
def getReferencedColumnsFromElems (vs : List Value) (mapping : SMap) :
    SMap × List String :=
  match vs with
  | [] => (mapping, [])
  | v :: rest =>
    let (m1, newNotAssignedColumns) := getReferencedColumnsFromValue v mapping
    let newNotAssignedColumns :=
      if newNotAssignedColumns.head? = some "*" then newNotAssignedColumns.tail
      else newNotAssignedColumns
    let (m2, restColumns) := getReferencedColumnsFromElems rest m1
    (m2, newNotAssignedColumns ++ restColumns)

end

/-- `getReferencedColumnsFromCondition` (lines 290-300). -/
def getReferencedColumnsFromCondition (condition : WhereCondition) (mapping : SMap) :
    SMap × List String :=
  match condition with
  | .node _ l r =>
    let (m1, a) := getReferencedColumnsFromCondition l mapping
    let (m2, b) := getReferencedColumnsFromCondition r m1
    (m2, a ++ b)
  | .expr e => getReferencedColumnsFromValue e mapping

/-- Lexicographic order on character lists by code point; agrees with Go's
bytewise string order (UTF-8 byte order coincides with code-point order). -/
def charListLe : List Char → List Char → Bool
  | [], _ => true
  | _ :: _, [] => false
  | a :: as, b :: bs =>
    if a.toNat < b.toNat then true
    else if b.toNat < a.toNat then false
    else charListLe as bs

def stringLe (a b : String) : Bool := charListLe a.data b.data

def insertSorted (s : String) : List String → List String
  | [] => [s]
  | t :: ts => if stringLe s t then s :: t :: ts else t :: insertSorted s ts

def sortStrings (l : List String) : List String := l.foldr insertSorted []

/-- `uniq` (lines 19-31): deduplicate through a set and return the sorted
slice.  Go ranges the set in arbitrary order and then sorts; the result is
the canonical sorted list of distinct elements, which is what we compute. -/
def uniq (slice : List String) : List String := sortStrings slice.eraseDups

/-- From-clause types referenced by the sources (`FromClauseArray`,
`FromClauseInnerJoin`; the `Merge` variant is irrelevant here but present in
the parser). -/
inductive FromClauseType where
  | FromClauseArray
  | FromClauseInnerJoin
  | FromClauseMerge
  deriving DecidableEq

/-- Modelled from the spec: a from-clause entry `{ name, aliasName }` (§3). -/
structure TableName where
  Name : Value
  Alias : String
  deriving DecidableEq

/-- Modelled from the spec: the from-clause (§3). -/
structure FromClause where
  /-- the Go field `Type` (`Type` is reserved in Lean) -/
  ftype : FromClauseType
  Names : List TableName
  deriving DecidableEq

/-- Modelled from the spec: the select-query fields consulted by the
column-reference resolver (§3): projected columns, from clause, optional
where condition, group-by elements, and the single-point-query flag. -/
structure SelectQuery where
  ColumnNames : List Value
  fromClause : FromClause
  whereCondition : Option WhereCondition
  groupByClauseElems : List Value
  isSinglePointQuery : Bool

def SelectQuery.GetColumnNames (q : SelectQuery) : List Value := q.ColumnNames

def SelectQuery.GetFromClause (q : SelectQuery) : FromClause := q.fromClause

def SelectQuery.GetWhereCondition (q : SelectQuery) : Option WhereCondition :=
  q.whereCondition

def SelectQuery.IsSinglePointQuery (q : SelectQuery) : Bool := q.isSinglePointQuery

/-- Insert a column into the per-table set `columns[name]` of `revertAlias`
(lines 88-95): sets are modelled as duplicate-free lists in insertion
order. -/
def setInsert (columns : List (String × List String)) (name column : String) :
    List (String × List String) :=
  match alGet columns name with
  | some cols =>
    if cols.contains column then columns else alSet columns name (cols ++ [column])
  | none => columns ++ [(name, [column])]

/-- The first loop of `revertAlias` (lines 81-98): move each aliasName's
columns into the per-real-table set and delete the aliasName key. -/
def revertAliasLoop : List TableName → SMap → List (String × List String) →
    SMap × List (String × List String)
  | [], mapping, columns => (mapping, columns)
  | table :: rest, mapping, columns =>
    let name := table.Name.name
    let aliasName := if table.Alias = "" then name else table.Alias
    let columns :=
      ((alGet mapping aliasName).getD []).foldl
        (fun cs column => setInsert cs name column) columns
    revertAliasLoop rest (alDelete mapping aliasName) columns

/-- `revertAlias` (lines 73-106): no-op unless the from-clause is an inner
join; otherwise re-key aliasName columns under real table names. -/
def SelectQuery.revertAlias (q : SelectQuery) (mapping : SMap) : SMap :=
  if q.GetFromClause.ftype ≠ FromClauseType.FromClauseInnerJoin then mapping
  else
    let (mapping, columns) := revertAliasLoop q.GetFromClause.Names mapping []
    columns.foldl (fun m tc => alSet m tc.1 tc.2) mapping

/-- The projected-column loop of `GetReferencedColumns` (lines 114-119),
skipping values named `time` or `sequence_number`. -/
def collectColumnNames : List Value → SMap → SMap × List String
  | [], mapping => (mapping, [])
  | v :: vs, mapping =>
    if v.name = "time" ∨ v.name = "sequence_number" then collectColumnNames vs mapping
    else
      let (m1, cols) := getReferencedColumnsFromValue v mapping
      let (m2, rest) := collectColumnNames vs m1
      (m2, cols ++ rest)

/-- The group-by loop of `GetReferencedColumns` (lines 126-128). -/
def collectGroupBy : List Value → SMap → SMap × List String
  | [], mapping => (mapping, [])
  | v :: vs, mapping =>
    let (m1, cols) := getReferencedColumnsFromValue v mapping
    let (m2, rest) := collectGroupBy vs m1
    (m2, cols ++ rest)

/-- The from-clause loop of `GetReferencedColumns` (lines 135-158): regex
tables receive exactly `notPrefixedColumns`; other tables (each string name
once) receive the sorted union of their mapping entry and
`notPrefixedColumns`, collapsed to `[*]` when that union has more than one
element and starts with `*`; consumed names are deleted from `mapping`. -/
def fromClauseLoop : List TableName → List String → List (Value × List String) →
    SMap → List String → List (Value × List String) × SMap
  | [], _, returnedMapping, mapping, _ => (returnedMapping, mapping)
  | tableName :: rest, addedTables, returnedMapping, mapping, notPrefixedColumns =>
    let value := tableName.Name
    if value.hasCompiledRegex then
      fromClauseLoop rest addedTables (returnedMapping ++ [(value, notPrefixedColumns)])
        mapping notPrefixedColumns
    else
      let name := value.name
      if addedTables.contains name then
        fromClauseLoop rest addedTables returnedMapping mapping notPrefixedColumns
      else
        let cols := uniq ((alGet mapping name).getD [] ++ notPrefixedColumns)
        let cols := if cols.length > 1 ∧ cols.head? = some "*" then cols.take 1 else cols
        fromClauseLoop rest (addedTables ++ [name]) (returnedMapping ++ [(value, cols)])
          (alDelete mapping name) notPrefixedColumns

/-- All leftover `prefix + "." + column` strings of the residual mapping,
in iteration order (lines 166-167). -/
def leftoverPairs (mapping : SMap) : List String :=
  mapping.flatMap (fun pc => pc.2.map (fun columnName => pc.1 ++ "." ++ columnName))

/-- One pass of the innermost loop of lines 168-173: append a single
leftover dotted name to every table whose current list does not have more
than one element with `*` first. -/
def appendLeftoverOne (d : String) (returnedMapping : List (Value × List String)) :
    List (Value × List String) :=
  returnedMapping.map (fun tc =>
    if tc.2.length > 1 ∧ tc.2.head? = some "*" then tc
    else (tc.1, tc.2 ++ [d]))

/-- The leftover-mapping recovery of `GetReferencedColumns` (lines 160-176):
for every remaining `(prefix, columnNames)` pair, in order, re-attach the
dotted name onto each non-`*`-headed result list. -/
def reattachLeftover (mapping : SMap) (returnedMapping : List (Value × List String)) :
    List (Value × List String) :=
  (leftoverPairs mapping).foldl (fun rm d => appendLeftoverOne d rm) returnedMapping

/-- `GetReferencedColumns` (lines 110-179): the per-table referenced-column
mapping of a select query, keyed by the from-clause `Value` entries. -/
def SelectQuery.GetReferencedColumns (q : SelectQuery) : List (Value × List String) :=
  let (mapping, notPrefixedColumns) := collectColumnNames q.GetColumnNames []
  let (mapping, notPrefixedColumns) :=
    if ¬ q.IsSinglePointQuery then
      let (m1, fromCondition) :=
        match q.GetWhereCondition with
        | some condition => getReferencedColumnsFromCondition condition mapping
        | none => (mapping, [])
      let (m2, fromGroupBy) := collectGroupBy q.groupByClauseElems m1
      (m2, notPrefixedColumns ++ fromCondition ++ fromGroupBy)
    else (mapping, notPrefixedColumns)
  let notPrefixedColumns := uniq notPrefixedColumns
  let mapping := q.revertAlias mapping
  let (returnedMapping, mapping) :=
    fromClauseLoop q.GetFromClause.Names [] [] mapping notPrefixedColumns
  if mapping.isEmpty then returnedMapping
  else reattachLeftover mapping returnedMapping

/-! ### Concrete values used in the theorems below -/

/-- The identifier leaf `time`. -/
def timeVal : Value := .mk .ValueSimpleName "time" []

/-- A duration literal (e.g. `1u` = one microsecond). -/
def durV (s : String) : Value := .mk .ValueDuration s []

def simpleV (n : String) : Value := .mk .ValueSimpleName n []

/-- A binary comparison expression `l op r`. -/
def cmpExpr (op : String) (l r : Value) : Value := .mk .ValueExpression op [l, r]

/-- The where-condition leaf `time = 100u`. -/
def timeEq100 : WhereCondition := .expr (cmpExpr "=" timeVal (durV "100u"))

/-- The where-condition leaf `time > 1u`. -/
def timeGt1u : WhereCondition := .expr (cmpExpr ">" timeVal (durV "1u"))

/-- The where-condition leaf `a = b`, which carries no time bound. -/
def abLeaf : WhereCondition := .expr (cmpExpr "=" (simpleV "a") (simpleV "b"))
/-- The where-condition leaf `time > 2u`. -/
def timeGt2u : WhereCondition := .expr (cmpExpr ">" timeVal (durV "2u"))

/-- The where-condition leaf `time > 1s`. -/
def timeGt1s : WhereCondition := .expr (cmpExpr ">" timeVal (durV "1s"))

/-- The where-condition leaf `time > 2s`. -/
def timeGt2s : WhereCondition := .expr (cmpExpr ">" timeVal (durV "2s"))


def intV (s : String) : Value := .mk .ValueInt s []

def strV (s : String) : Value := .mk .ValueString s []

/-- The from-clause table value `a`. -/
def tblA : Value := .mk .ValueTableName "a" []

/-- The from-clause table value `b`. -/
def tblB : Value := .mk .ValueTableName "b" []

/-- The from-clause table value `t`. -/
def tblT : Value := .mk .ValueTableName "t" []

/-- The regex from-clause value `/.*cpu.*/`. -/
def rgx : Value := .mk .ValueRegex ".*cpu.*" []

/-- `SELECT value FROM a AS x INNER JOIN b AS y WHERE x.host = 'srv1'`. -/
def q7 : SelectQuery where
  ColumnNames := [simpleV "value"]
  fromClause := ⟨.FromClauseInnerJoin, [⟨tblA, "x"⟩, ⟨tblB, "y"⟩]⟩
  whereCondition := some (.expr (cmpExpr "=" (simpleV "x.host") (strV "srv1")))
  groupByClauseElems := []
  isSinglePointQuery := false

/-- `SELECT * FROM /.*cpu.*/`. -/
def q8 : SelectQuery where
  ColumnNames := [.mk .ValueWildcard "*" []]
  fromClause := ⟨.FromClauseArray, [⟨rgx, ""⟩]⟩
  whereCondition := none
  groupByClauseElems := []
  isSinglePointQuery := false

/-- `SELECT host FROM /.*cpu.*/`. -/
def q8host : SelectQuery where
  ColumnNames := [simpleV "host"]
  fromClause := ⟨.FromClauseArray, [⟨rgx, ""⟩]⟩
  whereCondition := none
  groupByClauseElems := []
  isSinglePointQuery := false

/-- `SELECT a.b FROM /.*cpu.*/` — the projected identifier is provisionally
split into prefix `a` and column `b`, and the prefix matches no table. -/
def q8c : SelectQuery where
  ColumnNames := [simpleV "a.b"]
  fromClause := ⟨.FromClauseArray, [⟨rgx, ""⟩]⟩
  whereCondition := none
  groupByClauseElems := []
  isSinglePointQuery := false

/-- `SELECT *, foo, x.y FROM t` — the wildcard collapses `t`'s list to
`[*]`, and the prefix `x` of `x.y` matches no table. -/
def q9 : SelectQuery where
  ColumnNames := [.mk .ValueWildcard "*" [], simpleV "foo", simpleV "x.y"]
  fromClause := ⟨.FromClauseArray, [⟨tblT, ""⟩]⟩
  whereCondition := none
  groupByClauseElems := []
  isSinglePointQuery := false

/-- The heap `(a = 1) AND ((time > 1u) AND (b = 2))`: node 0 is the root
`AND(1, 2)`, node 2 the inner `AND(3, 4)`, nodes 1, 3, 4 the leaves. -/
def heap6 : Heap :=
  [(0, .interior "AND" 1 2),
   (1, .leaf (cmpExpr "=" (simpleV "a") (intV "1"))),
   (2, .interior "AND" 3 4),
   (3, .leaf (cmpExpr ">" timeVal (durV "1u"))),
   (4, .leaf (cmpExpr "=" (simpleV "b") (intV "2")))]

/-- The per-entry effect of the leftover-recovery loop: fold the dotted
names over one table's column list, skipping while the list has more than
one element and starts with `*`. -/
def reattachEntry (ds : List String) (cols : List String) : List String :=
  ds.foldl (fun cs d => if cs.length > 1 ∧ cs.head? = some "*" then cs else cs ++ [d]) cols

/-! ## Claims -/

/-- C3: for the single-leaf tree `time > T` with `T` a numeric/duration/
string literal that evaluates to `m` nanoseconds, start extraction consumes
the leaf and returns `m`, while end extraction returns the original leaf
unchanged together with `ZERO_TIME` (lines 411-415 and 431-435). -/
theorem getTime_timeGt_leaf (now m : Int) (t : Value)
    (hnum : isNumericValue t = true) (hp : parseTime now t = .ok m) :
    getTime now (some (.expr (cmpExpr ">" timeVal t))) true = .ok (none, some m) ∧
    getTime now (some (.expr (cmpExpr ">" timeVal t))) false
      = .ok (some (.expr (cmpExpr ">" timeVal t)), ZERO_TIME) := by
  obtain ⟨vt, n, es⟩ := t
  cases vt <;>
    simp_all [getTime, getTimeCond, getTimeLeaf, cmpExpr, timeVal, isNumericValue,
      Value.vtype, Value.name, Value.elems, ZERO_TIME]

/-- C3, witness: `time > 1u` at the concrete leaf. -/
theorem getTime_timeGt_leaf_witness :
    getTime 0 (some timeGt1u) true = .ok (none, some 1000) ∧
    getTime 0 (some timeGt1u) false = .ok (some timeGt1u, ZERO_TIME) := by
  have h := getTime_timeGt_leaf 0 1000 (durV "1u") (by decide) (by decide)
  simpa [timeGt1u] using h

/-- C1, counterexample: for the leaf `time = 100u` the extractor returns the
leaf itself (unconsumed) in both modes, not `None` as the claim states; the
returned timestamp is `parseTime`'s result re-interpreted as microseconds
(`100u` = 100000 ns, returned as 100000000 ns). -/
theorem timeEq_leaf_kept_cex :
    getTime 0 (some timeEq100) true = .ok (some timeEq100, some 100000000) ∧
    getTime 0 (some timeEq100) false = .ok (some timeEq100, some 100000000) ∧
    (some timeEq100 : Option WhereCondition) ≠ none := by decide

/-- C1 (amended): for a single comparison leaf `time = T` with `T` a literal
evaluating to `m`, both extraction modes return the ORIGINAL leaf (the `=`
branch at line 426 returns `condition`, not nil) together with the timestamp
`m * 1000` nanoseconds (line 422 re-interprets the parsed value as
microseconds). -/
theorem getTime_timeEq_leaf (now m : Int) (t : Value)
    (hnum : isNumericValue t = true) (hp : parseTime now t = .ok m) (s : Bool) :
    getTime now (some (.expr (cmpExpr "=" timeVal t))) s
      = .ok (some (.expr (cmpExpr "=" timeVal t)), some (m * 1000)) := by
  obtain ⟨vt, n, es⟩ := t
  cases vt <;>
    simp_all [getTime, getTimeCond, getTimeLeaf, cmpExpr, timeVal, isNumericValue,
      Value.vtype, Value.name, Value.elems]

/-- C1, witness: `time = 100u` concretely, in both modes. -/
theorem getTime_timeEq_leaf_witness :
    getTime 0 (some timeEq100) true = .ok (some timeEq100, some 100000000) ∧
    getTime 0 (some timeEq100) false = .ok (some timeEq100, some 100000000) := by
  constructor
  · have h := getTime_timeEq_leaf 0 100000 (durV "100u") (by decide) (by decide) true
    simpa [timeEq100] using h
  · have h := getTime_timeEq_leaf 0 100000 (durV "100u") (by decide) (by decide) false
    simpa [timeEq100] using h

/-- C5: a where-condition leaf whose expression is a bare literal of kind
duration, float, int, string or wildcard is rejected with the
`InvalidWhereExpression` error in both extraction modes (lines 363-367). -/
theorem getTime_bare_literal_leaf (now : Int) (e : Value) (s : Bool)
    (h : e.vtype = .ValueDuration ∨ e.vtype = .ValueFloat ∨ e.vtype = .ValueInt ∨
      e.vtype = .ValueString ∨ e.vtype = .ValueWildcard) :
    getTime now (some (.expr e)) s = .error (.InvalidWhereExpression e) := by
  obtain ⟨vt, n, es⟩ := e
  simp only [Value.vtype] at h
  rcases h with h | h | h | h | h <;> subst h <;>
    simp [getTime, getTimeCond, getTimeLeaf, Value.vtype]

/-- C5, witness: the bare integer literal `5` as a WHERE leaf. -/
theorem getTime_bare_literal_leaf_witness :
    getTime 0 (some (.expr (.mk .ValueInt "5" []))) true
      = .error (.InvalidWhereExpression (.mk .ValueInt "5" [])) := by
  have h := getTime_bare_literal_leaf 0 (.mk .ValueInt "5" []) true (by decide)
  exact h


/-- C2, counterexample: in `(time > 1u) OR (a = b)` only the left branch
produces a non-zero time (the right branch yields `ZERO_TIME`), yet the
extractor errors instead of propagating the time: line 448 uses a
disjunction, not a conjunction, over the two branch times. -/
theorem or_single_time_errors_cex :
    getTime 0 (some (.node "OR" timeGt1u abLeaf)) true
      = .error .ConflictingOrTimeBounds ∧
    getTime 0 (some timeGt1u) true = .ok (none, some 1000) ∧
    getTime 0 (some abLeaf) true = .ok (some abLeaf, ZERO_TIME) := by decide

/-- C2 (amended): an OR node fails with `ConflictingOrTimeBounds` exactly
when AT LEAST ONE recursive branch produces a non-sentinel extracted time
(lines 448-451); only when both branches return `ZERO_TIME` does the node
succeed, with `ZERO_TIME` and the rebuilt condition. -/
theorem getTime_or_node (now : Int) (l r : WhereCondition) (s : Bool)
    (nl nr : Option WhereCondition) (tl tr : Option Int)
    (hl : getTime now (some l) s = .ok (nl, tl))
    (hr : getTime now (some r) s = .ok (nr, tr)) :
    getTime now (some (.node "OR" l r)) s =
      if tl ≠ ZERO_TIME ∨ tr ≠ ZERO_TIME then .error .ConflictingOrTimeBounds
      else .ok (rebuildCondition "OR" nl nr, ZERO_TIME) := by
  simp only [getTime] at hl hr ⊢
  simp only [getTimeCond, hl, hr]
  by_cases hc : tl ≠ ZERO_TIME ∨ tr ≠ ZERO_TIME
  · simp [hc]
  · rw [not_or, not_not, not_not] at hc
    obtain ⟨h1, h2⟩ := hc
    subst h1; subst h2
    simp [combineTimes, ZERO_TIME]

/-- C2, witness: the concrete OR of the counterexample, derived from the
amended theorem. -/
theorem getTime_or_node_witness :
    getTime 0 (some (.node "OR" timeGt1u abLeaf)) true
      = .error .ConflictingOrTimeBounds := by
  have h := getTime_or_node 0 timeGt1u abLeaf true none (some abLeaf)
    (some 1000) ZERO_TIME (by decide) (by decide)
  simpa using h

/-- C4, counterexample: for `(time > 1u) AND (time > 2u)` both branches lie
in Unix second 0, so lines 469-475 (which compare only whole `Unix()`
seconds) return the RIGHT branch's time 2000 ns, not the minimum 1000 ns
claimed for start extraction. -/
theorem and_subsecond_cex :
    getTime 0 (some (.node "AND" timeGt1u timeGt2u)) true = .ok (none, some 2000) ∧
    getTime 0 (some timeGt1u) true = .ok (none, some 1000) ∧
    getTime 0 (some timeGt2u) true = .ok (none, some 2000) ∧
    ¬((2000 : Int) ≤ 1000) := by decide

/-- C4 (amended): when both branches of an AND node yield times `a` and `b`,
the combined time is chosen by whole-second comparison (lines 469-475):
start extraction keeps `a` only when `⌊a/1e9⌋ < ⌊b/1e9⌋`, end extraction
only when `⌊b/1e9⌋ < ⌊a/1e9⌋`; in every other case — including two times in
the same second — the right branch's time `b` is returned. -/
theorem getTime_and_node (now : Int) (l r : WhereCondition) (s : Bool)
    (nl nr : Option WhereCondition) (a b : Int)
    (hl : getTime now (some l) s = .ok (nl, some a))
    (hr : getTime now (some r) s = .ok (nr, some b)) :
    getTime now (some (.node "AND" l r)) s =
      .ok (rebuildCondition "AND" nl nr,
        some (if (if s then unixSeconds a < unixSeconds b
            else unixSeconds b < unixSeconds a) then a else b)) := by
  simp only [getTime] at hl hr ⊢
  simp only [getTimeCond, hl, hr]
  have hno : ¬("AND" = "OR" ∧
      ((some a : Option Int) ≠ ZERO_TIME ∨ (some b : Option Int) ≠ ZERO_TIME)) := by
    simp
  rw [if_neg hno]
  cases s <;> simp [combineTimes, gt_iff_lt] <;> split <;> rfl

/-- C4, witness: `(time > 1s) AND (time > 2s)` in start mode lies in
distinct seconds, so the earlier time 1s wins, via the amended theorem. -/
theorem getTime_and_node_witness :
    getTime 0 (some (.node "AND" timeGt1s timeGt2s)) true
      = .ok (none, some 1000000000) := by
  have h := getTime_and_node 0 timeGt1s timeGt2s true none none
    1000000000 2000000000 (by decide) (by decide)
  rw [h]; decide

/-- C6, counterexample: extraction mutates the shared tree.  Start
extraction over `heap6` consumes `time > 1u` and reassigns the root's
`Right` field in place (lines 453-461), so the post-call heap differs from
the original and a second start extraction over the very same root sees the
already-stripped tree: it finds no time bound (`ZERO_TIME`) where the first
call returned 1000 ns. -/
theorem getTimeHeap_mutation_cex :
    (getTimeHeap 0 10 heap6 (some 0) true).1 ≠ heap6 ∧
    (getTimeHeap 0 10 heap6 (some 0) true).2 = .ok (some 0, some 1000) ∧
    (getTimeHeap 0 10 (getTimeHeap 0 10 heap6 (some 0) true).1 (some 0) true).2
      = .ok (some 0, ZERO_TIME) := by decide

/-- C6 (amended): the extractor rewrites interior nodes IN PLACE — when both
rewritten children are non-nil it reassigns the node's `Left`/`Right` fields
(lines 459-460) — so a second extraction over the same tree observes the
stripped shape, not the pre-call one: `heap6`'s root is `AND(1, 2)` before
the call and `AND(1, 4)` after it (the consumed inner `AND(3, 4)` collapsed
to leaf 4). -/
theorem getTimeHeap_mutates_in_place :
    heapGet heap6 0 = some (.interior "AND" 1 2) ∧
    heapGet (getTimeHeap 0 10 heap6 (some 0) true).1 0
      = some (.interior "AND" 1 4) := by decide

/-- C7: `SELECT value FROM a AS x INNER JOIN b AS y WHERE x.host = 'srv1'`
resolves, after alias reversion, to `a ↦ [host, value]` and
`b ↦ [value]` — the unprefixed `value` is attributed to both joined tables
and `host` only to `a` through its alias `x`. -/
theorem referenced_columns_join_alias :
    q7.GetReferencedColumns = [(tblA, ["host", "value"]), (tblB, ["value"])] := by
  decide

/-- C8, counterexample: for `SELECT a.b FROM /.*cpu.*/` the unprefixed
column set is empty, yet the leftover-recovery loop (lines 166-176) appends
the alias-qualified name `a.b` to the regex table's list, so a regex table
CAN receive a dot-prefixed entry and differ from the unprefixed set. -/
theorem regex_table_dotted_cex :
    q8c.GetReferencedColumns = [(rgx, ["a.b"])] ∧
    lastDotSplit "a.b" = some ("a", "b") ∧
    (["a.b"] : List String) ≠ [] := by decide

/-- C8 (amended): in the from-clause loop a regex table is assigned exactly
the unprefixed column set (lines 140-144) — `[*]` for
`SELECT * FROM /.*cpu.*/` and `[host]` for `SELECT host FROM /.*cpu.*/` —
but the later leftover-prefix recovery may still append dotted entries to
it, as the counterexample shows. -/
theorem regex_table_columns :
    q8.GetReferencedColumns = [(rgx, ["*"])] ∧
    q8host.GetReferencedColumns = [(rgx, ["host"])] := by decide

theorem stringDataAppend (a b : String) : (a ++ b).data = a.data ++ b.data := by
  cases a with | mk ad => cases b with | mk bd => rfl

theorem lastDotSplitAux_none : ∀ l : List Char, lastDotSplitAux l = none → '.' ∉ l
  | [] => by intro _ hm; cases hm
  | c :: cs => by
    intro h
    simp only [lastDotSplitAux] at h
    cases hcs : lastDotSplitAux cs with
    | some pq => rw [hcs] at h; cases h
    | none =>
      rw [hcs] at h
      by_cases hc : c = '.'
      · rw [if_pos hc] at h; cases h
      · rw [if_neg hc] at h
        simp only [List.mem_cons, not_or]
        exact ⟨fun he => hc he.symm, lastDotSplitAux_none cs hcs⟩

theorem lastDotSplitAux_spec : ∀ l p q : List Char, lastDotSplitAux l = some (p, q) →
    l = p ++ '.' :: q ∧ '.' ∉ q
  | [], p, q => by intro h; cases h
  | c :: cs, p, q => by
    intro h
    simp only [lastDotSplitAux] at h
    cases hcs : lastDotSplitAux cs with
    | some pq =>
      obtain ⟨p', q'⟩ := pq
      rw [hcs] at h
      simp only [Option.some.injEq, Prod.mk.injEq] at h
      obtain ⟨hp, hq⟩ := h
      obtain ⟨ih1, ih2⟩ := lastDotSplitAux_spec cs p' q' hcs
      subst hp; subst hq
      exact ⟨by rw [ih1]; rfl, ih2⟩
    | none =>
      rw [hcs] at h
      by_cases hc : c = '.'
      · rw [if_pos hc] at h
        simp only [Option.some.injEq, Prod.mk.injEq] at h
        obtain ⟨hp, hq⟩ := h
        subst hp; subst hq
        exact ⟨by rw [hc]; rfl, lastDotSplitAux_none cs hcs⟩
      · rw [if_neg hc] at h; cases h

theorem lastDotSplit_spec (n p c : String) (h : lastDotSplit n = some (p, c)) :
    n = p ++ "." ++ c ∧ '.' ∉ c.data := by
  unfold lastDotSplit at h
  cases haux : lastDotSplitAux n.data with
  | none => rw [haux] at h; cases h
  | some pq =>
    obtain ⟨pd, qd⟩ := pq
    rw [haux] at h
    simp only [Option.map_some', Option.some.injEq, Prod.mk.injEq] at h
    obtain ⟨hp, hc⟩ := h
    obtain ⟨h1, h2⟩ := lastDotSplitAux_spec n.data pd qd haux
    constructor
    · cases n with
      | mk nd =>
        subst hp; subst hc
        have : (String.mk pd ++ "." ++ String.mk qd).data = pd ++ '.' :: qd := by
          rw [stringDataAppend, stringDataAppend]
          simp
        have hdata : (String.mk nd).data = nd := rfl
        rw [hdata] at h1
        rw [show String.mk nd = String.mk (pd ++ '.' :: qd) from by rw [h1]]
        cases hk : String.mk pd ++ "." ++ String.mk qd with
        | mk kd =>
          have : kd = pd ++ '.' :: qd := by
            have := congrArg String.data hk
            rw [stringDataAppend, stringDataAppend] at this
            simpa using this.symm
          rw [this]
    · subst hc
      exact h2

/-- C10: a simple-name or table-name `Value` whose identifier contains a dot
is split at the LAST dot (`strings.LastIndex`, line 268): the part before
the last dot becomes the prefix key appended to in the auxiliary mapping,
only the final (dot-free) segment becomes the column name, and the
identifier contributes nothing to the unprefixed column list
(lines 266-274). -/
theorem dotted_identifier_split (n p c : String) (m : SMap)
    (h : lastDotSplit n = some (p, c)) :
    n = p ++ "." ++ c ∧ '.' ∉ c.data ∧
    getReferencedColumnsFromValue (.mk .ValueSimpleName n []) m = (alAppend m p c, []) ∧
    getReferencedColumnsFromValue (.mk .ValueTableName n []) m = (alAppend m p c, []) := by
  obtain ⟨h1, h2⟩ := lastDotSplit_spec n p c h
  refine ⟨h1, h2, ?_, ?_⟩ <;> simp [getReferencedColumnsFromValue, h]

/-- C10, witness: `a.b.c` splits into prefix `a.b` and column `c`. -/
theorem dotted_identifier_split_witness :
    "a.b.c" = "a.b" ++ "." ++ "c" ∧ '.' ∉ "c".data ∧
    getReferencedColumnsFromValue (.mk .ValueSimpleName "a.b.c" []) []
      = (alAppend [] "a.b" "c", []) ∧
    getReferencedColumnsFromValue (.mk .ValueTableName "a.b.c" []) []
      = (alAppend [] "a.b" "c", []) :=
  dotted_identifier_split "a.b.c" "a.b" "c" [] (by decide)

theorem dotted_ne_star (p c : String) : p ++ "." ++ c ≠ "*" := by
  intro h
  have hd := congrArg String.data h
  rw [stringDataAppend, stringDataAppend] at hd
  have hlen := congrArg List.length hd
  simp only [List.length_append, List.length_cons, List.length_nil] at hlen
  have hp : p.data = [] := List.length_eq_zero.mp (by omega)
  have hc : c.data = [] := List.length_eq_zero.mp (by omega)
  rw [hp, hc] at hd
  simp at hd

theorem leftoverPairs_ne_star (m : SMap) : ∀ d ∈ leftoverPairs m, d ≠ "*" := by
  intro d hd
  simp only [leftoverPairs, List.mem_flatMap, List.mem_map] at hd
  obtain ⟨pc, _, c, _, hdc⟩ := hd
  subst hdc
  exact dotted_ne_star pc.1 c

theorem appendLeftoverOne_map (d : String) (rm : List (Value × List String)) :
    appendLeftoverOne d rm = rm.map (fun tc =>
      (tc.1, if tc.2.length > 1 ∧ tc.2.head? = some "*" then tc.2
        else tc.2 ++ [d])) := by
  unfold appendLeftoverOne
  congr 1
  funext tc
  by_cases hc : tc.2.length > 1 ∧ tc.2.head? = some "*"
  · simp [hc]
  · simp [hc]

theorem reattachLeftover_eq_map (m : SMap) (rm : List (Value × List String)) :
    reattachLeftover m rm
      = rm.map (fun tc => (tc.1, reattachEntry (leftoverPairs m) tc.2)) := by
  unfold reattachLeftover reattachEntry
  generalize leftoverPairs m = ds
  induction ds generalizing rm with
  | nil => simp
  | cons d ds ih =>
    simp only [List.foldl_cons]
    rw [ih (appendLeftoverOne d rm), appendLeftoverOne_map, List.map_map]
    simp

theorem reattachEntry_skip : ∀ (ds cols : List String),
    cols.length > 1 ∧ cols.head? = some "*" → reattachEntry ds cols = cols
  | [], _, _ => rfl
  | d :: ds, cols, h => by
    simp only [reattachEntry, List.foldl_cons]
    rw [if_pos h]
    exact reattachEntry_skip ds cols h

theorem reattachEntry_no_star : ∀ (ds cols : List String),
    (∀ d ∈ ds, d ≠ "*") → cols.head? ≠ some "*" → reattachEntry ds cols = cols ++ ds
  | [], cols, _, _ => by simp [reattachEntry]
  | d :: ds, cols, hds, hc => by
    simp only [reattachEntry, List.foldl_cons]
    rw [if_neg (fun hh => hc hh.2)]
    have hd : d ≠ "*" := hds d (by simp)
    have hds' : ∀ x ∈ ds, x ≠ "*" := fun x hx => hds x (by simp [hx])
    have hc' : (cols ++ [d]).head? ≠ some "*" := by
      cases cols with
      | nil => simpa using hd
      | cons c0 cs => simpa using hc
    have hrec := reattachEntry_no_star ds (cols ++ [d]) hds' hc'
    simp only [reattachEntry] at hrec
    rw [hrec]
    simp

theorem reattachEntry_single_star (ds : List String) :
    reattachEntry ds ["*"] = "*" :: ds.take 1 := by
  cases ds with
  | nil => rfl
  | cons d ds' =>
    simp only [reattachEntry, List.foldl_cons]
    rw [if_neg (by simp)]
    have := reattachEntry_skip ds' ["*", d] (by simp)
    simp only [reattachEntry] at this
    exact this

/-- C9, counterexample: in `SELECT *, foo, x.y FROM t` the table `t` is
collapsed to `[*]` by the from-clause loop, yet the leftover-recovery loop
still appends `x.y` to it — the skip test at line 169 requires length > 1,
which a collapsed `[*]` list never satisfies — so collapsed lists do NOT
remain `[*]`. -/
theorem collapsed_star_reattach_cex :
    q9.GetReferencedColumns = [(tblT, ["*", "x.y"])] ∧
    (["*", "x.y"] : List String) ≠ ["*"] := by decide

/-- C9 (amended): the leftover-recovery loop appends each dotted leftover
name to every table whose current list does not have BOTH more than one
element AND a leading `*` (line 169).  Per table: a list that is longer
than one element and starts with `*` is left unchanged; a list equal to
exactly `[*]` receives only the FIRST leftover entry (after which it is
skip-shaped); every other list receives all leftover entries in order. -/
theorem reattachLeftover_characterization (m : SMap)
    (rm : List (Value × List String)) :
    reattachLeftover m rm = rm.map (fun tc =>
      (tc.1,
        if tc.2.length > 1 ∧ tc.2.head? = some "*" then tc.2
        else if tc.2.head? = some "*" then tc.2 ++ (leftoverPairs m).take 1
        else tc.2 ++ leftoverPairs m)) := by
  have hds := leftoverPairs_ne_star m
  rw [reattachLeftover_eq_map]
  congr 1
  funext tc
  by_cases h1 : tc.2.length > 1 ∧ tc.2.head? = some "*"
  · rw [if_pos h1, reattachEntry_skip _ _ h1]
  · rw [if_neg h1]
    by_cases h2 : tc.2.head? = some "*"
    · rw [if_pos h2]
      have hstar : tc.2 = ["*"] := by
        cases hcse : tc.2 with
        | nil => rw [hcse] at h2; cases h2
        | cons c0 cs =>
          rw [hcse] at h2 h1
          simp only [List.head?_cons, Option.some.injEq] at h2
          subst h2
          cases cs with
          | nil => rfl
          | cons c1 cs' => exact absurd ⟨by simp, rfl⟩ h1
      rw [hstar, reattachEntry_single_star]
      rfl
    · rw [if_neg h2, reattachEntry_no_star _ _ hds h2]

/-- C9, witness: the characterization at a concrete leftover mapping and a
result list exercising all three shapes — a collapsed `[*]` list (gets only
the first dotted name), a plain list (gets all), and a `*`-headed list of
length two (unchanged). -/
theorem reattachLeftover_characterization_witness :
    reattachLeftover [("x", ["y", "z"])]
        [(tblT, ["*"]), (tblA, ["a"]), (rgx, ["*", "b"])]
      = [(tblT, ["*", "x.y"]), (tblA, ["a", "x.y", "x.z"]), (rgx, ["*", "b"])] := by
  have h := reattachLeftover_characterization [("x", ["y", "z"])]
    [(tblT, ["*"]), (tblA, ["a"]), (rgx, ["*", "b"])]
  rw [h]; decide
